import Mathlib

/-!
A verification development for the blackjack round engine
(`cards.py`, `blackjack.py`).  The Python classes are embedded shallowly:

* `Suite`, `Value`, `Card` mirror `cards.py` (`Value` is an `IntEnum`;
  `Value.val` records its numeric value).
* `PlayerHand` carries the mutable fields `cards`, `pips`, `value`, `flags`
  of the Python class; the methods become pure functions returning the
  updated record.
* `Eval` renders the Python `Flag` bitmask as a record of five Booleans
  (`Eval(0)` is `Eval.zero`; `|=` sets a field; `&` reads it).
* Machine integers do not occur: Python integers are arbitrary precision,
  and all quantities here (pips, hand values, bets) are non-negative, so
  they are modelled as `Nat`, with win amounts as `Int`.
* Fallible operations (`list.pop` on a possibly-empty list) return
  `Option`; `none` is the Python exception.
-/

/-- Embeds `cards.Suite`. -/
inductive Suite where
  | DIAMOND | CLUB | HEART | SPADE
  deriving DecidableEq, Repr

/-- Embeds `cards.Value`, an `IntEnum`. -/
inductive Value where
  | TWO | THREE | FOUR | FIVE | SIX | SEVEN | EIGHT | NINE | TEN
  | JACK | QUEEN | KING | ACE
  deriving DecidableEq, Repr

/-- The numeric value of each `cards.Value` member
    (`TWO = 2 … TEN = 10, JACK = 12, QUEEN = 13, KING = 14, ACE = 11`). -/
def Value.val : Value → Nat
  | .TWO => 2 | .THREE => 3 | .FOUR => 4 | .FIVE => 5 | .SIX => 6
  | .SEVEN => 7 | .EIGHT => 8 | .NINE => 9 | .TEN => 10
  | .JACK => 12 | .QUEEN => 13 | .KING => 14 | .ACE => 11

/-- Embeds `cards.Card`: an immutable (suite, value) pair.  Construction in Python
    validates membership in the enums; the Lean types make that automatic. -/
structure Card where
  suite : Suite
  value : Value
  deriving DecidableEq, Repr

/-- Embeds `blackjack.pip`: pip values of cards in Blackjack
    (`11 if v == Value.ACE else (v.value if v < 10 else 10)`). -/
def pip (v : Value) : Nat :=
  if v = Value.ACE then 11 else if v.val < 10 then v.val else 10

/-- Embeds `blackjack.Eval`: evaluation flags for a player's hand, rendered as one
    Boolean per flag. -/
structure Eval where
  hasAce : Bool
  has10 : Bool
  bust : Bool
  soft : Bool
  pair : Bool
  deriving DecidableEq, Repr

/-- Embeds `Eval(0)`: the empty flag set. -/
def Eval.zero : Eval := ⟨false, false, false, false, false⟩

/-- Embeds `blackjack.PlayerHand`: the list of cards together with the derived
    fields that Python stores on the object. -/
structure PlayerHand where
  cards : List Card
  pips : List Nat
  value : Nat
  flags : Eval
  deriving DecidableEq, Repr

/-- Embeds `PlayerHand.__init__`. -/
def PlayerHand.init : PlayerHand := ⟨[], [], 0, Eval.zero⟩

/-- Embeds the pip list `[pip[c.value] for c in cards]` (line 44). -/
def handPips (cards : List Card) : List Nat := cards.map fun c => pip c.value

/-- Python `max(xs)` as an `Option` (`none` for the empty list). -/
def maxNat? : List Nat → Option Nat
  | [] => none
  | x :: xs => some (match maxNat? xs with | none => x | some m => if x ≤ m then m else x)

/-- Python `min(xs)` as an `Option` (`none` for the empty list). -/
def minNat? : List Nat → Option Nat
  | [] => none
  | x :: xs => some (match minNat? xs with | none => x | some m => if x ≤ m then x else m)

/-- The loop of the `allValues` generator (lines 90-94): walking the pips in
    card order, each Ace pip demotes the running value by 10 and yields it. -/
def allValuesAux : List Nat → Nat → List Nat
  | [], _ => []
  | p :: ps, cur =>
      if p = 11 then (cur - 10) :: allValuesAux ps (cur - 10)
      else allValuesAux ps cur

/-- Embeds `PlayerHand.allValues` (lines 84-94), materialised as a list.  The
    generator reads only `self.value`, `self.flags & Eval.HAS_ACE` and
    `self.pips`, so it is a function of those three fields. -/
def allValuesOf (pips : List Nat) (value : Nat) (hasAce : Bool) : List Nat :=
  value :: (if hasAce then allValuesAux pips value else [])

/-- Embeds `PlayerHand.bestValue` (lines 100-102):
    `max((v for v in allValues if v <= 21), default=self.value)`. -/
def bestValueOf (pips : List Nat) (value : Nat) (hasAce : Bool) : Nat :=
  match maxNat? ((allValuesOf pips value hasAce).filter fun v => decide (v ≤ 21)) with
  | none => value
  | some m => m

/-- Embeds `PlayerHand.minValue` (lines 96-98): `min(self.allValues())`.  The list
    is never empty (it starts with `self.value`), so the `none` fallback is
    unreachable. -/
def minValueOf (pips : List Nat) (value : Nat) (hasAce : Bool) : Nat :=
  match minNat? (allValuesOf pips value hasAce) with
  | none => value
  | some m => m

def PlayerHand.allValues (h : PlayerHand) : List Nat :=
  allValuesOf h.pips h.value h.flags.hasAce

def PlayerHand.bestValue (h : PlayerHand) : Nat :=
  bestValueOf h.pips h.value h.flags.hasAce

def PlayerHand.minValue (h : PlayerHand) : Nat :=
  minValueOf h.pips h.value h.flags.hasAce

/-- Embeds the pair test `len(pips) == 2 and pips[0] == pips[1]` (line 48). -/
def pairFlag (pips : List Nat) : Bool :=
  match pips with
  | [a, b] => a == b
  | _ => false

/-- Embeds `PlayerHand.evaluate` (lines 43-60).  Python sets the flags one at a
    time; the calls `self.minValue()` (line 53) and `self.bestValue()`
    (line 56) therefore run on intermediate flag states, but both only read
    `HAS_ACE` (already set at line 52), `pips` and `value`, so they are
    invoked here on exactly the data those intermediate states expose. -/
def PlayerHand.evaluate (h : PlayerHand) : PlayerHand :=
  let pips := handPips h.cards
  ⟨h.cards, pips, pips.sum,
    ⟨decide (11 ∈ pips),
     decide (10 ∈ pips),
     decide (21 < bestValueOf pips pips.sum (decide (11 ∈ pips))),
     decide (11 ∈ pips) && decide (minValueOf pips pips.sum (decide (11 ∈ pips)) < 21),
     pairFlag pips⟩⟩

/-- Embeds `PlayerHand.update` (lines 35-38): append the card; re-evaluate only
    once the hand has at least two cards. -/
def PlayerHand.update (h : PlayerHand) (c : Card) : PlayerHand :=
  let h' : PlayerHand := { h with cards := h.cards ++ [c] }
  if 2 ≤ h'.cards.length then h'.evaluate else h'

/-- Embeds `PlayerHand.split` (lines 40-41): `return self.cards.pop()`.  Pops the
    last card; the derived fields are left untouched (stale).  `none` is the
    `IndexError` Python would raise on an empty hand. -/
def PlayerHand.split (h : PlayerHand) : Option (Card × PlayerHand) :=
  match h.cards.getLast? with
  | none => none
  | some c => some (c, { h with cards := h.cards.dropLast })

/-- Embeds `PlayerHand.isBlackjack` (lines 62-64). -/
def PlayerHand.isBlackjack (h : PlayerHand) : Bool :=
  decide (h.cards.length = 2) && h.flags.has10 && h.flags.hasAce

/-- Embeds `PlayerHand.isBust` (lines 66-67). -/
def PlayerHand.isBust (h : PlayerHand) : Bool := h.flags.bust

/-- Embeds `PlayerHand.isSoft` (lines 69-70). -/
def PlayerHand.isSoft (h : PlayerHand) : Bool := h.flags.soft

/-- A hand state actually produced by `evaluate`: at least two cards, and
    the derived fields agree with re-running `evaluate` (which depends only
    on `cards`). -/
def PlayerHand.Evaluated (h : PlayerHand) : Prop :=
  2 ≤ h.cards.length ∧ h.evaluate = h

instance (h : PlayerHand) : Decidable h.Evaluated := by
  unfold PlayerHand.Evaluated; infer_instance

/-- Embeds `blackjack.GameDeck`: the card supply (construction and shuffling are
    external; only the depleting list of cards matters). -/
structure GameDeck where
  cards : List Card
  deriving DecidableEq, Repr

/-- Embeds `GameDeck.dealCard` (lines 127-128): `return self.cards.pop()`.  Pops
    the last card; `none` is the `IndexError` Python's `list.pop` raises on
    an empty supply. -/
def GameDeck.dealCard (d : GameDeck) : Option (Card × GameDeck) :=
  match d.cards.getLast? with
  | none => none
  | some c => some (c, ⟨d.cards.dropLast⟩)

/-- Embeds `blackjack.Choice`: a player's choices at Blackjack. -/
inductive Choice where
  | HIT | STAND | DOUBLEDOWN | SPLIT | SURRENDER | INVALID
  deriving DecidableEq, Repr

/-- Embeds `blackjack.Player` (`self.choice = None` initially). -/
structure Player where
  name : String
  bet : Nat
  hand : PlayerHand
  choice : Option Choice
  deriving DecidableEq, Repr

/-- Embeds `Player.__init__(name, bet)`. -/
def Player.mkNew (name : String) (bet : Nat) : Player :=
  ⟨name, bet, PlayerHand.init, none⟩

/-- Embeds `Player.isDone` (lines 164-165). -/
def Player.isDone (p : Player) : Bool :=
  p.choice = some Choice.DOUBLEDOWN ∨ p.choice = some Choice.STAND ∨
    p.choice = some Choice.SURRENDER

/-- Embeds `Player.isBust` (lines 167-168). -/
def Player.isBust (p : Player) : Bool := p.hand.isBust

/-- Embeds `Player.isBlackjack` (lines 170-171). -/
def Player.isBlackjack (p : Player) : Bool := p.hand.isBlackjack

/-- Embeds `Player.isSurrendered` (lines 173-174). -/
def Player.isSurrendered (p : Player) : Bool := p.choice = some Choice.SURRENDER

/-- Embeds `Player.updateHand` (lines 176-180): update the hand with a new card;
    if the hand is now bust or blackjack, force the choice to STAND. -/
def Player.updateHand (p : Player) (c : Card) : Player :=
  let p' : Player := { p with hand := p.hand.update c }
  if p'.isBust || p'.isBlackjack then { p' with choice := some Choice.STAND }
  else p'

/-- Embeds `Player.split` (lines 182-189): create the sibling (named from the
    original, same bet), rename the original with suffix `.split1`, reset
    its choice, move the popped card to the sibling.  `none` is the
    `IndexError` on an empty hand (never reached: SPLIT needs a pair). -/
def Player.split (p : Player) : Option (Player × Player) :=
  match p.hand.split with
  | none => none
  | some (c, h') =>
      let p2 := Player.mkNew (p.name ++ ".split2") p.bet
      let p1 : Player := { p with name := p.name ++ ".split1", choice := none, hand := h' }
      some (p1, p2.updateHand c)

/-- One iteration of the loop body of `BlackjackGame.resolveHand`
    (lines 273-286), given the already-validated choice returned by
    `resolveChoice`.  Mirrors the three sequential `if` statements, each
    re-reading `p.choice` (which `updateHand` may have overwritten with
    STAND).  Returns the updated player, the sibling created by a SPLIT (to
    be inserted right after the player), and the remaining deck;
    `none` if the supply runs out. -/
def resolveHandStep (p0 : Player) (ch : Choice) (d0 : GameDeck) :
    Option (Player × Option Player × GameDeck) :=
  let p1 : Player := { p0 with choice := some ch }
  let afterDraw : Option (Player × GameDeck) :=
    if p1.choice = some Choice.HIT ∨ p1.choice = some Choice.DOUBLEDOWN then
      match d0.dealCard with
      | none => none
      | some (c, d1) => some (p1.updateHand c, d1)
    else some (p1, d0)
  match afterDraw with
  | none => none
  | some (p2, d2) =>
      let p3 : Player :=
        if p2.choice = some Choice.DOUBLEDOWN then { p2 with bet := p2.bet * 2 } else p2
      if p3.choice = some Choice.SPLIT then
        match p3.split with
        | none => none
        | some (pa, pb) =>
            match d2.dealCard with
            | none => none
            | some (c1, d3) =>
                match d3.dealCard with
                | none => none
                | some (c2, d4) => some (pa.updateHand c1, some (pb.updateHand c2), d4)
      else some (p3, none, d2)

/-- The same step acting on the round's player sequence: the player at
    index `i` is resolved, updated in place, and a SPLIT sibling is
    inserted at `i + 1` (`self.players.insert(self.players.index(p)+1, p2)`,
    line 285). -/
def resolveHandStepList (players : List Player) (i : Nat) (ch : Choice)
    (d : GameDeck) : Option (List Player × GameDeck) :=
  match players[i]? with
  | none => none
  | some p =>
      match resolveHandStep p ch d with
      | none => none
      | some (p', sib, d') =>
          let ps := players.set i p'
          match sib with
          | none => some (ps, d')
          | some p2 => some (ps.insertIdx (i + 1) p2, d')

/-- Python `bool > bool` (line 302): booleans compare as integers. -/
def boolGt (a b : Bool) : Bool := decide (b.toNat < a.toNat)

/-- Python `bool < bool` (line 311). -/
def boolLt (a b : Bool) : Bool := decide (a.toNat < b.toNat)

/-- The per-player win computation of `BlackjackGame.resolveBets`
    (lines 298-316), with the dealer's status precomputed as in
    lines 290-294.  Bets are non-negative integers, so Python's
    `int(1.5 * bet)` and `int(0.5 * bet)` are the floors `3 * bet / 2`
    and `bet / 2`. -/
def playerWin (dealerBust dealerBlackjack : Bool) (dealerHandValue : Nat)
    (p : Player) : Int :=
  if p.isBust then -(p.bet : Int)
  else if boolGt p.isBlackjack dealerBlackjack then ((3 * p.bet / 2 : Nat) : Int)
  else if p.isSurrendered then -((p.bet / 2 : Nat) : Int)
  else if dealerBust || decide (dealerHandValue < p.hand.bestValue) then (p.bet : Int)
  else if decide (p.hand.bestValue < dealerHandValue)
      || boolLt p.isBlackjack dealerBlackjack then -(p.bet : Int)
  else 0

/-- Embeds `BlackjackGame.resolveBets` (lines 288-319): the list of win amounts,
    one per player, against the dealer's final hand. -/
def resolveBetsWins (dealer : Player) (players : List Player) : List Int :=
  players.map (playerWin dealer.isBust dealer.isBlackjack dealer.hand.bestValue)

/-- The number of Ace pips (value 11) in a pip list. -/
def countAces : List Nat → Nat
  | [] => 0
  | p :: ps => (if p = 11 then 1 else 0) + countAces ps

/-! ### Concrete cards for counterexamples and witnesses -/

def cardAS : Card := ⟨Suite.SPADE, Value.ACE⟩
def cardAH : Card := ⟨Suite.HEART, Value.ACE⟩
def cardKS : Card := ⟨Suite.SPADE, Value.KING⟩
def cardKH : Card := ⟨Suite.HEART, Value.KING⟩
def cardQD : Card := ⟨Suite.DIAMOND, Value.QUEEN⟩
def card5C : Card := ⟨Suite.CLUB, Value.FIVE⟩
def card8S : Card := ⟨Suite.SPADE, Value.EIGHT⟩
def card8H : Card := ⟨Suite.HEART, Value.EIGHT⟩
def card9S : Card := ⟨Suite.SPADE, Value.NINE⟩
def card9H : Card := ⟨Suite.HEART, Value.NINE⟩
def cardTS : Card := ⟨Suite.SPADE, Value.TEN⟩

/-! ### Generic facts about `maxNat?`, `minNat?`, `allValuesOf` -/

theorem maxNat?_eq_none_iff {l : List Nat} : maxNat? l = none ↔ l = [] := by
  cases l <;> simp [maxNat?]

theorem maxNat?_mem {l : List Nat} {m : Nat} (h : maxNat? l = some m) : m ∈ l := by
  induction l generalizing m with
  | nil => simp [maxNat?] at h
  | cons x xs ih =>
      rw [maxNat?] at h
      cases hx : maxNat? xs with
      | none =>
          rw [hx] at h
          simp only [Option.some.injEq] at h
          simp [← h]
      | some m' =>
          rw [hx] at h
          simp only [Option.some.injEq] at h
          by_cases hle : x ≤ m'
          · rw [if_pos hle] at h
            exact List.mem_cons_of_mem _ (h ▸ ih hx)
          · rw [if_neg hle] at h
            simp [← h]

theorem le_maxNat? {l : List Nat} {m a : Nat} (h : maxNat? l = some m)
    (ha : a ∈ l) : a ≤ m := by
  induction l generalizing m with
  | nil => simp at ha
  | cons x xs ih =>
      rw [maxNat?] at h
      rcases List.mem_cons.mp ha with rfl | ha'
      · cases hx : maxNat? xs with
        | none => rw [hx] at h; simp only [Option.some.injEq] at h; omega
        | some m' =>
            rw [hx] at h; simp only [Option.some.injEq] at h
            by_cases hle : a ≤ m' <;>
              [rw [if_pos hle] at h; rw [if_neg hle] at h] <;> omega
      · cases hx : maxNat? xs with
        | none =>
            rw [maxNat?_eq_none_iff] at hx
            subst hx; simp at ha'
        | some m' =>
            rw [hx] at h; simp only [Option.some.injEq] at h
            have h2 := ih hx ha'
            by_cases hle : x ≤ m' <;>
              [rw [if_pos hle] at h; rw [if_neg hle] at h] <;> omega

theorem minNat?_eq_none_iff {l : List Nat} : minNat? l = none ↔ l = [] := by
  cases l <;> simp [minNat?]

theorem minNat?_mem {l : List Nat} {m : Nat} (h : minNat? l = some m) : m ∈ l := by
  induction l generalizing m with
  | nil => simp [minNat?] at h
  | cons x xs ih =>
      rw [minNat?] at h
      cases hx : minNat? xs with
      | none =>
          rw [hx] at h
          simp only [Option.some.injEq] at h
          simp [← h]
      | some m' =>
          rw [hx] at h
          simp only [Option.some.injEq] at h
          by_cases hle : x ≤ m'
          · rw [if_pos hle] at h
            simp [← h]
          · rw [if_neg hle] at h
            exact List.mem_cons_of_mem _ (h ▸ ih hx)

theorem minNat?_le {l : List Nat} {m a : Nat} (h : minNat? l = some m)
    (ha : a ∈ l) : m ≤ a := by
  induction l generalizing m with
  | nil => simp at ha
  | cons x xs ih =>
      rw [minNat?] at h
      rcases List.mem_cons.mp ha with rfl | ha'
      · cases hx : minNat? xs with
        | none => rw [hx] at h; simp only [Option.some.injEq] at h; omega
        | some m' =>
            rw [hx] at h; simp only [Option.some.injEq] at h
            by_cases hle : a ≤ m' <;>
              [rw [if_pos hle] at h; rw [if_neg hle] at h] <;> omega
      · cases hx : minNat? xs with
        | none =>
            rw [minNat?_eq_none_iff] at hx
            subst hx; simp at ha'
        | some m' =>
            rw [hx] at h; simp only [Option.some.injEq] at h
            have h2 := ih hx ha'
            by_cases hle : x ≤ m' <;>
              [rw [if_pos hle] at h; rw [if_neg hle] at h] <;> omega

theorem value_mem_allValuesOf (pips : List Nat) (value : Nat) (hasAce : Bool) :
    value ∈ allValuesOf pips value hasAce := by
  simp [allValuesOf]

theorem minValueOf_mem (pips : List Nat) (value : Nat) (hasAce : Bool) :
    minValueOf pips value hasAce ∈ allValuesOf pips value hasAce := by
  unfold minValueOf
  cases hm : minNat? (allValuesOf pips value hasAce) with
  | none => rw [minNat?_eq_none_iff] at hm; simp [allValuesOf] at hm
  | some m => exact minNat?_mem hm

theorem minValueOf_le {pips : List Nat} {value : Nat} {hasAce : Bool} {x : Nat}
    (hx : x ∈ allValuesOf pips value hasAce) : minValueOf pips value hasAce ≤ x := by
  unfold minValueOf
  cases hm : minNat? (allValuesOf pips value hasAce) with
  | none => rw [minNat?_eq_none_iff] at hm; simp [allValuesOf] at hm
  | some m => exact minNat?_le hm hx

/-- When some achievable value is at most 21, `bestValueOf` is the greatest
    such value. -/
theorem bestValueOf_spec_some {pips : List Nat} {value : Nat} {hasAce : Bool}
    {x : Nat} (hx : x ∈ allValuesOf pips value hasAce) (hx21 : x ≤ 21) :
    bestValueOf pips value hasAce ∈ allValuesOf pips value hasAce ∧
      bestValueOf pips value hasAce ≤ 21 ∧
      ∀ y ∈ allValuesOf pips value hasAce, y ≤ 21 → y ≤ bestValueOf pips value hasAce := by
  unfold bestValueOf
  cases hm : maxNat? ((allValuesOf pips value hasAce).filter fun v => decide (v ≤ 21)) with
  | none =>
      rw [maxNat?_eq_none_iff, List.filter_eq_nil_iff] at hm
      exact absurd hx21 (by simpa using hm x hx)
  | some m =>
      have hmem := maxNat?_mem hm
      rw [List.mem_filter] at hmem
      refine ⟨hmem.1, by simpa using hmem.2, ?_⟩
      intro y hy hy21
      exact le_maxNat? hm (List.mem_filter.mpr ⟨hy, by simpa using hy21⟩)

/-- When every achievable value exceeds 21, `bestValueOf` falls back to the
    raw value. -/
theorem bestValueOf_spec_none {pips : List Nat} {value : Nat} {hasAce : Bool}
    (hall : ∀ y ∈ allValuesOf pips value hasAce, ¬y ≤ 21) :
    bestValueOf pips value hasAce = value := by
  unfold bestValueOf
  cases hm : maxNat? ((allValuesOf pips value hasAce).filter fun v => decide (v ≤ 21)) with
  | none => rfl
  | some m =>
      have hmem := maxNat?_mem hm
      rw [List.mem_filter] at hmem
      exact absurd (by simpa using hmem.2) (hall m hmem.1)

/-- The hand busts under `bestValueOf` exactly when it busts under
    `minValueOf`. -/
theorem bestValueOf_gt_iff_minValueOf_gt (pips : List Nat) (value : Nat)
    (hasAce : Bool) :
    21 < bestValueOf pips value hasAce ↔ 21 < minValueOf pips value hasAce := by
  constructor
  · intro hb
    by_contra hmin
    push_neg at hmin
    have := bestValueOf_spec_some (minValueOf_mem pips value hasAce) hmin
    omega
  · intro hmin
    have hall : ∀ y ∈ allValuesOf pips value hasAce, ¬y ≤ 21 := by
      intro y hy
      have := minValueOf_le hy
      omega
    have hv := hall value (value_mem_allValuesOf pips value hasAce)
    rw [bestValueOf_spec_none hall]
    omega

/-! ### Field equations of an evaluated hand -/

theorem PlayerHand.Evaluated.pips_eq {h : PlayerHand} (he : h.Evaluated) :
    h.pips = handPips h.cards :=
  (congrArg PlayerHand.pips he.2).symm

theorem PlayerHand.Evaluated.value_eq {h : PlayerHand} (he : h.Evaluated) :
    h.value = (handPips h.cards).sum :=
  (congrArg PlayerHand.value he.2).symm

theorem PlayerHand.Evaluated.hasAce_eq {h : PlayerHand} (he : h.Evaluated) :
    h.flags.hasAce = decide (11 ∈ handPips h.cards) :=
  (congrArg (fun x => x.flags.hasAce) he.2).symm

theorem PlayerHand.Evaluated.has10_eq {h : PlayerHand} (he : h.Evaluated) :
    h.flags.has10 = decide (10 ∈ handPips h.cards) :=
  (congrArg (fun x => x.flags.has10) he.2).symm

theorem PlayerHand.Evaluated.pair_eq {h : PlayerHand} (he : h.Evaluated) :
    h.flags.pair = pairFlag (handPips h.cards) :=
  (congrArg (fun x => x.flags.pair) he.2).symm

theorem PlayerHand.Evaluated.bust_eq0 {h : PlayerHand} (he : h.Evaluated) :
    h.flags.bust
      = decide (21 < bestValueOf (handPips h.cards) (handPips h.cards).sum
          (decide (11 ∈ handPips h.cards))) :=
  (congrArg (fun x => x.flags.bust) he.2).symm

theorem PlayerHand.Evaluated.soft_eq0 {h : PlayerHand} (he : h.Evaluated) :
    h.flags.soft
      = (decide (11 ∈ handPips h.cards)
          && decide (minValueOf (handPips h.cards) (handPips h.cards).sum
              (decide (11 ∈ handPips h.cards)) < 21)) :=
  (congrArg (fun x => x.flags.soft) he.2).symm

theorem PlayerHand.Evaluated.bestValue_eq {h : PlayerHand} (he : h.Evaluated) :
    h.bestValue = bestValueOf (handPips h.cards) (handPips h.cards).sum
      (decide (11 ∈ handPips h.cards)) := by
  show bestValueOf h.pips h.value h.flags.hasAce = _
  rw [he.pips_eq, he.value_eq, he.hasAce_eq]

theorem PlayerHand.Evaluated.minValue_eq {h : PlayerHand} (he : h.Evaluated) :
    h.minValue = minValueOf (handPips h.cards) (handPips h.cards).sum
      (decide (11 ∈ handPips h.cards)) := by
  show minValueOf h.pips h.value h.flags.hasAce = _
  rw [he.pips_eq, he.value_eq, he.hasAce_eq]

/-- On an evaluated hand the BUST flag records `bestValue() > 21`. -/
theorem PlayerHand.Evaluated.bust_eq {h : PlayerHand} (he : h.Evaluated) :
    h.flags.bust = decide (21 < h.bestValue) := by
  rw [he.bust_eq0, he.bestValue_eq]

/-- An evaluated hand that is not bust has `bestValue() ≤ 21`. -/
theorem PlayerHand.Evaluated.bestValue_le_of_not_bust {h : PlayerHand}
    (he : h.Evaluated) (hb : h.flags.bust = false) : h.bestValue ≤ 21 := by
  have := he.bust_eq
  rw [hb] at this
  have := of_decide_eq_false this.symm
  omega

/-! ### Pip-value bounds and blackjack hands -/

theorem pip_le_11 (v : Value) : pip v ≤ 11 := by cases v <;> decide

/-- A blackjack hand (2 cards, HAS_10, HAS_ACE) has pips `[10, 11]` or
    `[11, 10]`. -/
theorem PlayerHand.Evaluated.blackjack_pips {h : PlayerHand} (he : h.Evaluated)
    (hbj : h.isBlackjack = true) : h.pips = [10, 11] ∨ h.pips = [11, 10] := by
  unfold PlayerHand.isBlackjack at hbj
  simp only [Bool.and_eq_true, decide_eq_true_eq] at hbj
  obtain ⟨⟨hlen, h10⟩, h11⟩ := hbj
  rw [he.has10_eq, decide_eq_true_eq, ← he.pips_eq] at h10
  rw [he.hasAce_eq, decide_eq_true_eq, ← he.pips_eq] at h11
  have hplen : h.pips.length = 2 := by
    rw [he.pips_eq, handPips, List.length_map, hlen]
  cases hp : h.pips with
  | nil => rw [hp] at hplen; simp at hplen
  | cons a t =>
      cases t with
      | nil => rw [hp] at hplen; simp at hplen
      | cons b t2 =>
          cases t2 with
          | cons x t3 => rw [hp] at hplen; simp at hplen
          | nil =>
              rw [hp] at h10 h11
              simp only [List.mem_cons, List.not_mem_nil, or_false] at h10 h11
              rcases h10 with rfl | rfl <;> rcases h11 with h11 | h11
              · exact absurd h11 (by decide)
              · left; rw [← h11]
              · right; rw [← h11]
              · exact absurd h11 (by decide)

/-- A blackjack hand evaluates to best value 21 and is not bust. -/
theorem PlayerHand.Evaluated.blackjack_bestValue {h : PlayerHand}
    (he : h.Evaluated) (hbj : h.isBlackjack = true) :
    h.bestValue = 21 ∧ h.flags.bust = false := by
  have hv : h.value = h.pips.sum := by rw [he.value_eq, he.pips_eq]
  have ha : h.flags.hasAce = decide (11 ∈ h.pips) := by rw [he.hasAce_eq, he.pips_eq]
  have hbv : h.bestValue = 21 := by
    show bestValueOf h.pips h.value h.flags.hasAce = 21
    rcases he.blackjack_pips hbj with hp | hp <;> rw [hv, ha, hp] <;> decide
  refine ⟨hbv, ?_⟩
  rw [he.bust_eq, hbv]
  decide

/-- A two-card hand can never bust: either the raw total is at most 21,
    or it is 22 = 11 + 11 and demoting an Ace brings it to 12. -/
theorem twoPips_not_bust {x y : Nat} (hx : x ≤ 11) (hy : y ≤ 11) :
    ¬21 < bestValueOf [x, y] ([x, y] : List Nat).sum (decide (11 ∈ ([x, y] : List Nat))) := by
  intro hgt
  have hs : ([x, y] : List Nat).sum = x + y := by simp
  by_cases hle : x + y ≤ 21
  · have hmem := value_mem_allValuesOf [x, y] (([x, y] : List Nat).sum)
      (decide (11 ∈ ([x, y] : List Nat)))
    have := (bestValueOf_spec_some hmem (by omega)).2.1
    omega
  · have hx11 : x = 11 := by omega
    have hy11 : y = 11 := by omega
    subst hx11; subst hy11
    rw [hs] at hgt
    revert hgt
    decide

/-- Evaluating any two-card hand leaves the BUST flag clear; the stale
    fields of the pre-evaluation record are irrelevant. -/
theorem evaluate_two_not_bust (a b : Card) (ps : List Nat) (v : Nat) (f : Eval) :
    (PlayerHand.evaluate ⟨[a, b], ps, v, f⟩).flags.bust = false := by
  show decide (21 < bestValueOf (handPips [a, b]) (handPips [a, b]).sum
      (decide (11 ∈ handPips [a, b]))) = false
  have hh : handPips [a, b] = [pip a.value, pip b.value] := rfl
  rw [hh, decide_eq_false_iff_not]
  exact twoPips_not_bust (pip_le_11 _) (pip_le_11 _)

/-! ### Computation lemmas for the split step -/

/-- Dealing from a non-empty supply pops the last card. -/
theorem GameDeck.dealCard_concat (ds : List Card) (f : Card) :
    GameDeck.dealCard ⟨ds ++ [f]⟩ = some (f, ⟨ds⟩) := by
  simp [GameDeck.dealCard, List.getLast?_concat, List.dropLast_concat]

/-- Rewrites `Player.updateHand` in the explicit record form. -/
theorem Player.updateHand_def (p : Player) (c : Card) :
    p.updateHand c = ⟨p.name, p.bet, p.hand.update c,
      if (p.hand.update c).isBust || (p.hand.update c).isBlackjack
      then some Choice.STAND else p.choice⟩ := by
  unfold Player.updateHand Player.isBust Player.isBlackjack
  by_cases hcond : ((p.hand.update c).isBust || (p.hand.update c).isBlackjack) = true
  · simp only [hcond, if_pos]
  · simp only [Bool.not_eq_true] at hcond
    simp only [hcond, Bool.false_eq_true, if_false, if_neg]

/-- Giving a one-card hand its second card: the result is the same player
    with the freshly evaluated two-card hand (identical to a directly
    dealt hand over the same cards), auto-standing exactly on blackjack
    (a two-card hand cannot bust). -/
theorem Player.updateHand_second (p : Player) (c1 c : Card)
    (hc : p.hand.cards = [c1]) :
    p.updateHand c = ⟨p.name, p.bet, (PlayerHand.init.update c1).update c,
      if ((PlayerHand.init.update c1).update c).isBlackjack then some Choice.STAND
      else p.choice⟩ := by
  obtain ⟨nm, bt, hd, ch⟩ := p
  obtain ⟨cs, pp, vv, ff⟩ := hd
  replace hc : cs = [c1] := hc
  subst hc
  have hupd : PlayerHand.update ⟨[c1], pp, vv, ff⟩ c
      = PlayerHand.evaluate ⟨[c1, c], pp, vv, ff⟩ := rfl
  have hsame : PlayerHand.evaluate ⟨[c1, c], pp, vv, ff⟩
      = (PlayerHand.init.update c1).update c := rfl
  rw [Player.updateHand_def]
  simp only [hupd, hsame, PlayerHand.isBust]
  rw [← hsame, evaluate_two_not_bust, hsame]
  simp only [Bool.false_or]

/-- Rewrites `Player.split` on a two-card hand in explicit record form. -/
theorem Player.split_two (p : Player) (c1 c2 : Card)
    (hc : p.hand.cards = [c1, c2]) :
    p.split = some
      (⟨p.name ++ ".split1", p.bet, ⟨[c1], p.hand.pips, p.hand.value, p.hand.flags⟩, none⟩,
       ⟨p.name ++ ".split2", p.bet, ⟨[c2], [], 0, Eval.zero⟩, none⟩) := by
  obtain ⟨nm, bt, hd, ch⟩ := p
  obtain ⟨cs, pp, vv, ff⟩ := hd
  replace hc : cs = [c1, c2] := hc
  subst hc
  rfl

/-- The full SPLIT branch of one `resolveHand` iteration on a two-card
    hand, with the supply ending in `…, f2, f1` (so the original draws `f1`
    first, then the sibling draws `f2`): both resulting hands are exactly
    the directly dealt two-card hands, the original keeps its bet and
    loses its SPLIT choice (auto-standing only on blackjack), and the
    sibling copies the bet. -/
theorem resolveHandStep_split (p : Player) (c1 c2 f1 f2 : Card) (ds : List Card)
    (hc : p.hand.cards = [c1, c2]) :
    resolveHandStep p Choice.SPLIT ⟨ds ++ [f2, f1]⟩ =
      some
        (⟨p.name ++ ".split1", p.bet, (PlayerHand.init.update c1).update f1,
           if ((PlayerHand.init.update c1).update f1).isBlackjack
           then some Choice.STAND else none⟩,
         some ⟨p.name ++ ".split2", p.bet, (PlayerHand.init.update c2).update f2,
           if ((PlayerHand.init.update c2).update f2).isBlackjack
           then some Choice.STAND else none⟩,
         ⟨ds⟩) := by
  have hd1 : GameDeck.dealCard ⟨ds ++ [f2, f1]⟩ = some (f1, ⟨ds ++ [f2]⟩) := by
    have hds : ds ++ [f2, f1] = (ds ++ [f2]) ++ [f1] :=
      (List.append_assoc ds [f2] [f1]).symm
    rw [hds, GameDeck.dealCard_concat]
  have hd2 : GameDeck.dealCard ⟨ds ++ [f2]⟩ = some (f2, ⟨ds⟩) :=
    GameDeck.dealCard_concat ds f2
  have hsplit := Player.split_two { p with choice := some Choice.SPLIT } c1 c2 hc
  have hup1 := Player.updateHand_second
    (⟨p.name ++ ".split1", p.bet, ⟨[c1], p.hand.pips, p.hand.value, p.hand.flags⟩, none⟩)
    c1 f1 rfl
  have hup2 := Player.updateHand_second
    (⟨p.name ++ ".split2", p.bet, ⟨[c2], [], 0, Eval.zero⟩, none⟩) c2 f2 rfl
  unfold resolveHandStep
  simp only [reduceCtorEq, Option.some.injEq, reduceIte, if_false, if_true,
    decide_eq_true_eq, or_self, or_false, false_or]
  rw [hsplit]
  simp only []
  rw [hd1]
  simp only []
  rw [hd2]
  simp only [hup1, hup2]

/-! ### List positioning helpers -/

theorem getElem?_length_append {α : Type _} (l1 l2 : List α) (a : α) :
    (l1 ++ a :: l2)[l1.length]? = some a := by
  rw [List.getElem?_append_right (Nat.le_refl _)]
  simp

theorem set_length_append {α : Type _} (l1 l2 : List α) (a b : α) :
    (l1 ++ a :: l2).set l1.length b = l1 ++ b :: l2 := by
  induction l1 with
  | nil => rfl
  | cons x xs ih => simp [List.set, ih]

theorem insertIdx_length_append {α : Type _} (l1 l2 : List α) (a b : α) :
    (l1 ++ a :: l2).insertIdx (l1.length + 1) b = l1 ++ a :: b :: l2 := by
  induction l1 with
  | nil => rfl
  | cons x xs ih =>
      simp only [List.cons_append, List.length_cons, List.insertIdx_succ_cons, ih]

/-- Settlement rule 2: a non-bust blackjack player against a dealer without
    blackjack wins `int(1.5 * bet)`. -/
theorem playerWin_blackjack (db : Bool) (dv : Nat) (q : Player)
    (hnb : q.isBust = false) (hbj : q.isBlackjack = true) :
    playerWin db false dv q = ((3 * q.bet / 2 : Nat) : Int) := by
  unfold playerWin
  rw [hnb, hbj]
  simp [boolGt]

/-- C4: resolving SPLIT for a player holding a 2-card pair inserts exactly
    one sibling immediately after the original; the original is renamed
    with suffix `.split1`, the sibling is named with suffix `.split2` and
    copies (not halves) the bet; each of the two players ends up with one
    card of the pair plus one freshly dealt card; and the original's choice
    is reset to none before its new card arrives (so after the step it is
    none unless the new two-card hand is an auto-stood blackjack). -/
theorem C4_split_expands_players
    (l1 l2 : List Player) (p : Player) (c1 c2 f1 f2 : Card) (ds : List Card)
    (hc : p.hand.cards = [c1, c2]) (hpair : p.hand.flags.pair = true) :
    ∃ p' p2 : Player,
      resolveHandStepList (l1 ++ p :: l2) l1.length Choice.SPLIT ⟨ds ++ [f2, f1]⟩
        = some (l1 ++ p' :: p2 :: l2, ⟨ds⟩) ∧
      (l1 ++ p' :: p2 :: l2).length = (l1 ++ p :: l2).length + 1 ∧
      p'.name = p.name ++ ".split1" ∧
      p2.name = p.name ++ ".split2" ∧
      p'.bet = p.bet ∧ p2.bet = p.bet ∧
      p'.hand.cards = [c1, f1] ∧ p2.hand.cards = [c2, f2] ∧
      p'.choice = (if p'.hand.isBlackjack then some Choice.STAND else none) ∧
      p2.choice = (if p2.hand.isBlackjack then some Choice.STAND else none) := by
  refine ⟨⟨p.name ++ ".split1", p.bet, (PlayerHand.init.update c1).update f1,
      if ((PlayerHand.init.update c1).update f1).isBlackjack
      then some Choice.STAND else none⟩,
    ⟨p.name ++ ".split2", p.bet, (PlayerHand.init.update c2).update f2,
      if ((PlayerHand.init.update c2).update f2).isBlackjack
      then some Choice.STAND else none⟩,
    ?_, by simp only [List.length_append, List.length_cons]; omega,
    rfl, rfl, rfl, rfl, rfl, rfl, rfl, rfl⟩
  unfold resolveHandStepList
  rw [getElem?_length_append]
  simp only []
  rw [resolveHandStep_split p c1 c2 f1 f2 ds hc]
  simp only []
  rw [set_length_append, insertIdx_length_append]

/-- C4 witness: a pair of eights is split in a one-player round; the two
    resulting players each hold one eight plus one fresh card. -/
theorem C4_split_expands_players_witness :
    (⟨"PlayerA", 10, (PlayerHand.init.update card8S).update card8H, none⟩ :
        Player).hand.cards = [card8S, card8H] ∧
    (⟨"PlayerA", 10, (PlayerHand.init.update card8S).update card8H, none⟩ :
        Player).hand.flags.pair = true ∧
    (∃ p' p2 : Player,
      resolveHandStepList
          ([] ++ (⟨"PlayerA", 10, (PlayerHand.init.update card8S).update card8H,
            none⟩ : Player) :: []) ([] : List Player).length Choice.SPLIT
          ⟨[] ++ [card9S, cardKH]⟩
        = some ([] ++ p' :: p2 :: [], ⟨[]⟩) ∧
      ([] ++ p' :: p2 :: []).length
        = ([] ++ (⟨"PlayerA", 10, (PlayerHand.init.update card8S).update card8H,
            none⟩ : Player) :: []).length + 1 ∧
      p'.name = "PlayerA" ++ ".split1" ∧
      p2.name = "PlayerA" ++ ".split2" ∧
      p'.bet = 10 ∧ p2.bet = 10 ∧
      p'.hand.cards = [card8S, cardKH] ∧ p2.hand.cards = [card8H, card9S] ∧
      p'.choice = (if p'.hand.isBlackjack then some Choice.STAND else none) ∧
      p2.choice = (if p2.hand.isBlackjack then some Choice.STAND else none)) :=
  ⟨by decide, by decide,
    C4_split_expands_players [] []
      ⟨"PlayerA", 10, (PlayerHand.init.update card8S).update card8H, none⟩
      card8S card8H cardKH card9S [] (by decide) (by decide)⟩

/-- C10: a two-card Ace-plus-ten hand produced by a split is exactly the
    directly dealt hand over the same cards (blackjack classification has
    no split marker), so whichever of the original or sibling ends up with
    `HAS_ACE` and `HAS_10` is a blackjack, is auto-stood, and settles for
    `int(1.5 * bet)` against a dealer without blackjack. -/
theorem C10_split_blackjack_like_dealt
    (p : Player) (c1 c2 f1 f2 : Card) (ds : List Card)
    (dealerBust : Bool) (dealerHandValue : Nat)
    (hc : p.hand.cards = [c1, c2]) (hpair : p.hand.flags.pair = true) :
    ∃ p' p2 : Player,
      resolveHandStep p Choice.SPLIT ⟨ds ++ [f2, f1]⟩ = some (p', some p2, ⟨ds⟩) ∧
      p'.hand = (PlayerHand.init.update c1).update f1 ∧
      p2.hand = (PlayerHand.init.update c2).update f2 ∧
      (p'.hand.flags.hasAce = true → p'.hand.flags.has10 = true →
        p'.isBlackjack = true ∧ p'.choice = some Choice.STAND ∧
        playerWin dealerBust false dealerHandValue p' = ((3 * p.bet / 2 : Nat) : Int)) ∧
      (p2.hand.flags.hasAce = true → p2.hand.flags.has10 = true →
        p2.isBlackjack = true ∧ p2.choice = some Choice.STAND ∧
        playerWin dealerBust false dealerHandValue p2 = ((3 * p.bet / 2 : Nat) : Int)) := by
  have main : ∀ (nm : String) (q : Player) (a b : Card),
      q = ⟨nm, p.bet, (PlayerHand.init.update a).update b,
        if ((PlayerHand.init.update a).update b).isBlackjack
        then some Choice.STAND else none⟩ →
      q.hand.flags.hasAce = true → q.hand.flags.has10 = true →
      q.isBlackjack = true ∧ q.choice = some Choice.STAND ∧
      playerWin dealerBust false dealerHandValue q = ((3 * p.bet / 2 : Nat) : Int) := by
    intro nm q a b hq hace h10
    subst hq
    replace hace : ((PlayerHand.init.update a).update b).flags.hasAce = true := hace
    replace h10 : ((PlayerHand.init.update a).update b).flags.has10 = true := h10
    have hev : ((PlayerHand.init.update a).update b).Evaluated := ⟨Nat.le_refl 2, rfl⟩
    have hbj : ((PlayerHand.init.update a).update b).isBlackjack = true := by
      unfold PlayerHand.isBlackjack
      rw [hace, h10]
      rfl
    have hbust : ((PlayerHand.init.update a).update b).flags.bust = false :=
      (hev.blackjack_bestValue hbj).2
    refine ⟨hbj, ?_, ?_⟩
    · show (if ((PlayerHand.init.update a).update b).isBlackjack
          then some Choice.STAND else none) = some Choice.STAND
      rw [hbj]
      rfl
    · exact playerWin_blackjack dealerBust dealerHandValue _ hbust hbj
  refine ⟨⟨p.name ++ ".split1", p.bet, (PlayerHand.init.update c1).update f1,
      if ((PlayerHand.init.update c1).update f1).isBlackjack
      then some Choice.STAND else none⟩,
    ⟨p.name ++ ".split2", p.bet, (PlayerHand.init.update c2).update f2,
      if ((PlayerHand.init.update c2).update f2).isBlackjack
      then some Choice.STAND else none⟩,
    resolveHandStep_split p c1 c2 f1 f2 ds hc, rfl, rfl, ?_, ?_⟩
  · intro hace h10
    exact main (p.name ++ ".split1") _ c1 f1 rfl hace h10
  · intro hace h10
    exact main (p.name ++ ".split2") _ c2 f2 rfl hace h10

/-- C10 witness: splitting a pair of Aces where the original draws a King:
    the original's hand {A♠, K♥} is a blackjack, auto-stood, and worth
    `int(1.5 * 10) = 15`. -/
theorem C10_split_blackjack_like_dealt_witness :
    (⟨"PlayerA", 10, (PlayerHand.init.update cardAS).update cardAH, none⟩ :
        Player).hand.cards = [cardAS, cardAH] ∧
    (⟨"PlayerA", 10, (PlayerHand.init.update cardAS).update cardAH, none⟩ :
        Player).hand.flags.pair = true ∧
    (∃ p' p2 : Player,
      resolveHandStep
          (⟨"PlayerA", 10, (PlayerHand.init.update cardAS).update cardAH,
            none⟩ : Player) Choice.SPLIT ⟨[] ++ [card9S, cardKH]⟩
        = some (p', some p2, ⟨[]⟩) ∧
      p'.hand = (PlayerHand.init.update cardAS).update cardKH ∧
      p2.hand = (PlayerHand.init.update cardAH).update card9S ∧
      (p'.hand.flags.hasAce = true → p'.hand.flags.has10 = true →
        p'.isBlackjack = true ∧ p'.choice = some Choice.STAND ∧
        playerWin false false 19 p' = ((3 * 10 / 2 : Nat) : Int)) ∧
      (p2.hand.flags.hasAce = true → p2.hand.flags.has10 = true →
        p2.isBlackjack = true ∧ p2.choice = some Choice.STAND ∧
        playerWin false false 19 p2 = ((3 * 10 / 2 : Nat) : Int))) :=
  ⟨by decide, by decide,
    C10_split_blackjack_like_dealt
      ⟨"PlayerA", 10, (PlayerHand.init.update cardAS).update cardAH, none⟩
      cardAS cardAH cardKH card9S [] false 19 (by decide) (by decide)⟩

/-- C2: settlement for a player that is neither bust nor surrendered:
    player blackjack without dealer blackjack wins `int(1.5 * bet)`;
    dealer blackjack without player blackjack loses the full bet;
    blackjack on both sides pushes (0). -/
theorem C2_settlement_blackjack_cases (p d : Player)
    (hep : p.hand.Evaluated) (hed : d.hand.Evaluated)
    (hnb : p.isBust = false) (hns : p.isSurrendered = false) :
    (p.isBlackjack = true ∧ d.isBlackjack = false →
      playerWin d.isBust d.isBlackjack d.hand.bestValue p
        = ((3 * p.bet / 2 : Nat) : Int)) ∧
    (d.isBlackjack = true ∧ p.isBlackjack = false →
      playerWin d.isBust d.isBlackjack d.hand.bestValue p = -(p.bet : Int)) ∧
    (p.isBlackjack = true ∧ d.isBlackjack = true →
      playerWin d.isBust d.isBlackjack d.hand.bestValue p = 0) := by
  refine ⟨?_, ?_, ?_⟩
  · rintro ⟨hpbj, hdbj⟩
    rw [hdbj]
    exact playerWin_blackjack d.isBust d.hand.bestValue p hnb hpbj
  · rintro ⟨hdbj, hpbj⟩
    have hd21 : d.hand.bestValue = 21 := (hed.blackjack_bestValue hdbj).1
    have hdbust : d.isBust = false := (hed.blackjack_bestValue hdbj).2
    have hple : p.hand.bestValue ≤ 21 := hep.bestValue_le_of_not_bust hnb
    unfold playerWin
    rw [hnb, hns, hpbj, hdbj, hdbust, hd21]
    have hlt : decide (21 < p.hand.bestValue) = false := decide_eq_false (by omega)
    rw [hlt]
    simp [boolGt, boolLt]
  · rintro ⟨hpbj, hdbj⟩
    have hd21 : d.hand.bestValue = 21 := (hed.blackjack_bestValue hdbj).1
    have hdbust : d.isBust = false := (hed.blackjack_bestValue hdbj).2
    have hp21 : p.hand.bestValue = 21 := (hep.blackjack_bestValue hpbj).1
    unfold playerWin
    rw [hnb, hns, hpbj, hdbj, hdbust, hd21, hp21]
    simp [boolGt, boolLt]

/-- C2 witness: the player holds a blackjack {A♠, K♥} with bet 10; the
    dealer shows 19 without blackjack; the player is paid
    `int(1.5 * 10) = 15`. -/
theorem C2_settlement_blackjack_cases_witness :
    (⟨"PlayerB", 10, (PlayerHand.init.update cardAS).update cardKH,
        some Choice.STAND⟩ : Player).hand.Evaluated ∧
    (⟨"Dealer", 0, (PlayerHand.init.update cardTS).update card9S,
        some Choice.STAND⟩ : Player).hand.Evaluated ∧
    (⟨"PlayerB", 10, (PlayerHand.init.update cardAS).update cardKH,
        some Choice.STAND⟩ : Player).isBust = false ∧
    (⟨"PlayerB", 10, (PlayerHand.init.update cardAS).update cardKH,
        some Choice.STAND⟩ : Player).isSurrendered = false ∧
    ((⟨"PlayerB", 10, (PlayerHand.init.update cardAS).update cardKH,
        some Choice.STAND⟩ : Player).isBlackjack = true ∧
      (⟨"Dealer", 0, (PlayerHand.init.update cardTS).update card9S,
        some Choice.STAND⟩ : Player).isBlackjack = false) ∧
    playerWin
        (⟨"Dealer", 0, (PlayerHand.init.update cardTS).update card9S,
          some Choice.STAND⟩ : Player).isBust
        (⟨"Dealer", 0, (PlayerHand.init.update cardTS).update card9S,
          some Choice.STAND⟩ : Player).isBlackjack
        (⟨"Dealer", 0, (PlayerHand.init.update cardTS).update card9S,
          some Choice.STAND⟩ : Player).hand.bestValue
        (⟨"PlayerB", 10, (PlayerHand.init.update cardAS).update cardKH,
          some Choice.STAND⟩ : Player)
      = ((3 * (⟨"PlayerB", 10, (PlayerHand.init.update cardAS).update cardKH,
          some Choice.STAND⟩ : Player).bet / 2 : Nat) : Int) :=
  ⟨by decide, by decide, by decide, by decide, by decide,
    (C2_settlement_blackjack_cases
      ⟨"PlayerB", 10, (PlayerHand.init.update cardAS).update cardKH,
        some Choice.STAND⟩
      ⟨"Dealer", 0, (PlayerHand.init.update cardTS).update card9S,
        some Choice.STAND⟩
      (by decide) (by decide) (by decide) (by decide)).1 (by decide)⟩

/-- C5: for every evaluated hand, `bestValue()` is the greatest element of
    `allValues()` not exceeding 21; when every element exceeds 21 it falls
    back to `rawValue`, the sum of the pips with every Ace counted as 11. -/
theorem C5_bestValue_max_le_21 (h : PlayerHand) (he : h.Evaluated) :
    ((∃ v ∈ h.allValues, v ≤ 21) →
      h.bestValue ∈ h.allValues ∧ h.bestValue ≤ 21 ∧
        ∀ v ∈ h.allValues, v ≤ 21 → v ≤ h.bestValue) ∧
    ((∀ v ∈ h.allValues, 21 < v) →
      h.bestValue = h.value ∧ h.value = h.pips.sum) := by
  constructor
  · rintro ⟨v, hv, hv21⟩
    exact bestValueOf_spec_some hv hv21
  · intro hall
    refine ⟨bestValueOf_spec_none fun y hy => ?_, ?_⟩
    · have := hall y hy
      omega
    · rw [he.value_eq, he.pips_eq]

/-- C5 witness: the hand {K♠, Q♦, 5♣} has `allValues() = [25]`, no value
    at most 21, and `bestValue()` falls back to the raw value 25. -/
theorem C5_bestValue_max_le_21_witness :
    (((PlayerHand.init.update cardKS).update cardQD).update card5C).Evaluated ∧
    (∀ v ∈ (((PlayerHand.init.update cardKS).update cardQD).update card5C).allValues,
        21 < v) ∧
    ((((PlayerHand.init.update cardKS).update cardQD).update card5C).bestValue
        = (((PlayerHand.init.update cardKS).update cardQD).update card5C).value ∧
      (((PlayerHand.init.update cardKS).update cardQD).update card5C).value
        = (((PlayerHand.init.update cardKS).update cardQD).update card5C).pips.sum) :=
  ⟨by decide, by decide,
    (C5_bestValue_max_le_21 _ (by decide)).2 (by decide)⟩

/-- C6: on every evaluated hand the BUST flag is set exactly when
    `bestValue() > 21`, and that is equivalent to `minValue() > 21` (the
    hand exceeds 21 under every Ace valuation). -/
theorem C6_bust_iff_best_iff_min (h : PlayerHand) (he : h.Evaluated) :
    (h.flags.bust = true ↔ 21 < h.bestValue) ∧
    (21 < h.bestValue ↔ 21 < h.minValue) := by
  constructor
  · rw [he.bust_eq]
    simp
  · exact bestValueOf_gt_iff_minValueOf_gt h.pips h.value h.flags.hasAce

/-- C6 witness: the hand {K♠, Q♦, 5♣} is bust, with best value 25 and
    minimum value 25 both above 21. -/
theorem C6_bust_iff_best_iff_min_witness :
    (((PlayerHand.init.update cardKS).update cardQD).update card5C).Evaluated ∧
    (((((PlayerHand.init.update cardKS).update cardQD).update card5C).flags.bust
        = true ↔
      21 < (((PlayerHand.init.update cardKS).update cardQD).update card5C).bestValue) ∧
     (21 < (((PlayerHand.init.update cardKS).update cardQD).update card5C).bestValue ↔
      21 < (((PlayerHand.init.update cardKS).update cardQD).update card5C).minValue)) :=
  ⟨by decide, C6_bust_iff_best_iff_min _ (by decide)⟩

/-- C9: on every evaluated hand the SOFT and BUST flags are never both set:
    SOFT needs `minValue() < 21` while BUST forces `minValue() > 21`. -/
theorem C9_soft_bust_never_both (h : PlayerHand) (he : h.Evaluated) :
    ¬(h.flags.soft = true ∧ h.flags.bust = true) := by
  rintro ⟨hs, hb⟩
  rw [he.soft_eq0] at hs
  rw [he.bust_eq0] at hb
  simp only [Bool.and_eq_true, decide_eq_true_eq] at hs hb
  have := (bestValueOf_gt_iff_minValueOf_gt (handPips h.cards)
    (handPips h.cards).sum (decide (11 ∈ handPips h.cards))).mp hb
  omega

/-- C9 witness: the soft hand {A♠, 5♣} carries SOFT but not BUST. -/
theorem C9_soft_bust_never_both_witness :
    ((PlayerHand.init.update cardAS).update card5C).Evaluated ∧
    ¬(((PlayerHand.init.update cardAS).update card5C).flags.soft = true ∧
      ((PlayerHand.init.update cardAS).update card5C).flags.bust = true) :=
  ⟨by decide, C9_soft_bust_never_both _ (by decide)⟩

/-! ### Hands with exactly one Ace -/

theorem allValuesAux_no_ace {ps : List Nat} (h : countAces ps = 0) (v : Nat) :
    allValuesAux ps v = [] := by
  induction ps generalizing v with
  | nil => rfl
  | cons p ps ih =>
      rw [countAces] at h
      by_cases hp : p = 11
      · rw [if_pos hp] at h
        exact absurd h (by omega)
      · rw [allValuesAux, if_neg hp]
        rw [if_neg hp] at h
        exact ih (by omega) v

theorem allValuesAux_one_ace {ps : List Nat} (h : countAces ps = 1) (v : Nat) :
    allValuesAux ps v = [v - 10] := by
  induction ps generalizing v with
  | nil => rw [countAces] at h; exact absurd h (by decide)
  | cons p ps ih =>
      rw [countAces] at h
      by_cases hp : p = 11
      · rw [if_pos hp] at h
        rw [allValuesAux, if_pos hp, allValuesAux_no_ace (by omega)]
      · rw [if_neg hp] at h
        rw [allValuesAux, if_neg hp]
        exact ih (by omega) v

theorem mem_of_countAces_pos {ps : List Nat} (h : 0 < countAces ps) : 11 ∈ ps := by
  induction ps with
  | nil => rw [countAces] at h; exact absurd h (by decide)
  | cons p ps ih =>
      rw [countAces] at h
      by_cases hp : p = 11
      · rw [hp]; exact List.mem_cons_self _ _
      · rw [if_neg hp] at h
        exact List.mem_cons_of_mem _ (ih (by omega))

/-- C3 counterexample: the evaluated hand {A♠, K♥, Q♦, 5♣} has exactly one
    Ace and raw value 36 > 21, yet `bestValue()` is 36 (the fallback to the
    raw value), not `rawValue - 10 = 26` as the claim states for every hand
    with `rawValue > 21`. -/
theorem C3_counterexample :
    ((((PlayerHand.init.update cardAS).update cardKH).update cardQD).update
        card5C).Evaluated ∧
    countAces ((((PlayerHand.init.update cardAS).update cardKH).update
        cardQD).update card5C).pips = 1 ∧
    ¬((((PlayerHand.init.update cardAS).update cardKH).update cardQD).update
        card5C).value ≤ 21 ∧
    ((((PlayerHand.init.update cardAS).update cardKH).update cardQD).update
        card5C).value = 36 ∧
    ((((PlayerHand.init.update cardAS).update cardKH).update cardQD).update
        card5C).bestValue = 36 ∧
    ((((PlayerHand.init.update cardAS).update cardKH).update cardQD).update
        card5C).bestValue ≠
      ((((PlayerHand.init.update cardAS).update cardKH).update cardQD).update
        card5C).value - 10 := by
  decide

/-- C3 amended: for every evaluated hand with exactly one Ace,
    `bestValue()` is `rawValue` when `rawValue ≤ 21`, is `rawValue - 10`
    when `rawValue > 21` but `rawValue - 10 ≤ 21`, and falls back to
    `rawValue` when even `rawValue - 10` exceeds 21. -/
theorem C3_one_ace_bestValue (h : PlayerHand) (he : h.Evaluated)
    (hone : countAces h.pips = 1) :
    h.bestValue = if h.value ≤ 21 then h.value
      else if h.value - 10 ≤ 21 then h.value - 10 else h.value := by
  have haceT : h.flags.hasAce = true := by
    rw [he.hasAce_eq, ← he.pips_eq, decide_eq_true_eq]
    exact mem_of_countAces_pos (by omega)
  have hbv : h.bestValue = bestValueOf h.pips h.value true := by
    show bestValueOf h.pips h.value h.flags.hasAce = _
    rw [haceT]
  have hall : allValuesOf h.pips h.value true = [h.value, h.value - 10] := by
    rw [allValuesOf, allValuesAux_one_ace hone]
    rfl
  rw [hbv]
  by_cases h1 : h.value ≤ 21
  · rw [if_pos h1]
    obtain ⟨hmem, _, hub⟩ :=
      bestValueOf_spec_some (value_mem_allValuesOf h.pips h.value true) h1
    have hvle := hub h.value (value_mem_allValuesOf h.pips h.value true) h1
    rw [hall] at hmem
    simp only [List.mem_cons, List.not_mem_nil, or_false] at hmem
    rcases hmem with he1 | he1 <;> omega
  · rw [if_neg h1]
    by_cases h2 : h.value - 10 ≤ 21
    · rw [if_pos h2]
      have hmem2 : h.value - 10 ∈ allValuesOf h.pips h.value true := by
        rw [hall]
        exact List.mem_cons_of_mem _ (List.mem_cons_self _ _)
      obtain ⟨hmem, hle21, _⟩ := bestValueOf_spec_some hmem2 h2
      rw [hall] at hmem
      simp only [List.mem_cons, List.not_mem_nil, or_false] at hmem
      rcases hmem with he1 | he1 <;> omega
    · rw [if_neg h2]
      apply bestValueOf_spec_none
      intro y hy
      rw [hall] at hy
      simp only [List.mem_cons, List.not_mem_nil, or_false] at hy
      rcases hy with rfl | rfl <;> omega

/-- C3 witness: the one-Ace hand {A♠, K♥} has raw value 21 and
    `bestValue() = 21`. -/
theorem C3_one_ace_bestValue_witness :
    ((PlayerHand.init.update cardAS).update cardKH).Evaluated ∧
    countAces ((PlayerHand.init.update cardAS).update cardKH).pips = 1 ∧
    ((PlayerHand.init.update cardAS).update cardKH).bestValue
      = if ((PlayerHand.init.update cardAS).update cardKH).value ≤ 21
        then ((PlayerHand.init.update cardAS).update cardKH).value
        else if ((PlayerHand.init.update cardAS).update cardKH).value - 10 ≤ 21
          then ((PlayerHand.init.update cardAS).update cardKH).value - 10
          else ((PlayerHand.init.update cardAS).update cardKH).value :=
  ⟨by decide, by decide, C3_one_ace_bestValue _ (by decide) (by decide)⟩

/-- C7 counterexample: splitting the evaluated pair {8♠, 8♥} leaves the
    original hand with exactly one card but with the stale value 16 and the
    stale PAIR flag of the former two-card hand — not rawValue 0 and empty
    flags as the claim states for every one-card hand. -/
theorem C7_counterexample :
    ((PlayerHand.init.update card8S).update card8H).split
      = some (card8H,
          ⟨[card8S], [8, 8], 16, ⟨false, false, false, false, true⟩⟩) ∧
    (⟨[card8S], [8, 8], 16, (⟨false, false, false, false, true⟩ : Eval)⟩ :
        PlayerHand).cards.length = 1 ∧
    ¬((⟨[card8S], [8, 8], 16, (⟨false, false, false, false, true⟩ : Eval)⟩ :
          PlayerHand).value = 0 ∧
      (⟨[card8S], [8, 8], 16, (⟨false, false, false, false, true⟩ : Eval)⟩ :
          PlayerHand).flags = Eval.zero) := by
  decide

/-- C7 amended: every hand built by card additions alone that contains
    exactly one card (that is, a fresh hand given its first card) has
    rawValue 0 and the empty flag set, because the first added card never
    triggers evaluation; only a one-card hand left by `split` retains the
    stale value and flags of the former two-card hand, until its next card
    arrives. -/
theorem C7_first_card_keeps_zero_state (c : Card) :
    (PlayerHand.init.update c).cards = [c] ∧
    (PlayerHand.init.update c).pips = [] ∧
    (PlayerHand.init.update c).value = 0 ∧
    (PlayerHand.init.update c).flags = Eval.zero :=
  ⟨rfl, rfl, rfl, rfl⟩

/-- C8: dealing from an empty supply is a definite failure (the embedding's
    `none`, Python's exception from `list.pop`), never an undefined card;
    dealing from a non-empty supply yields a card and shrinks the supply by
    one. -/
theorem C8_dealCard_empty_fails_else_pops :
    GameDeck.dealCard ⟨[]⟩ = none ∧
    ∀ d : GameDeck, d.cards ≠ [] →
      ∃ c d', d.dealCard = some (c, d') ∧ d'.cards.length + 1 = d.cards.length := by
  refine ⟨rfl, ?_⟩
  intro d hne
  obtain ⟨cs⟩ := d
  rcases List.eq_nil_or_concat cs with rfl | ⟨l', a, rfl⟩
  · exact absurd rfl hne
  · refine ⟨a, ⟨l'⟩, ?_, ?_⟩
    · rw [List.concat_eq_append]
      exact GameDeck.dealCard_concat l' a
    · simp [List.concat_eq_append]

/-- C8 witness: a one-card supply deals its card and becomes empty. -/
theorem C8_dealCard_empty_fails_else_pops_witness :
    GameDeck.dealCard ⟨[]⟩ = none ∧
    (⟨[cardAS]⟩ : GameDeck).cards ≠ [] ∧
    ∃ c d', (⟨[cardAS]⟩ : GameDeck).dealCard = some (c, d') ∧
      d'.cards.length + 1 = (⟨[cardAS]⟩ : GameDeck).cards.length :=
  ⟨C8_dealCard_empty_fails_else_pops.1, by decide,
    C8_dealCard_empty_fails_else_pops.2 ⟨[cardAS]⟩ (by decide)⟩

/-- C1: the failing input for the double-down claim.  The player holds
    {K♠, 9♥} with bet 10 and resolves DOUBLEDOWN; the supply deals Q♦,
    making the hand {K♠, 9♥, Q♦} bust.  `updateHand` then force-sets the
    choice to STAND, so the subsequent `if p.choice == Choice.DOUBLEDOWN`
    test fails and the bet stays 10 instead of doubling to 20; the player
    is done and drew exactly one card, but the doubling was skipped. -/
theorem C1_doubledown_bust_skips_doubling :
    (resolveHandStep
        ⟨"PlayerA", 10, (PlayerHand.init.update cardKS).update card9H, none⟩
        Choice.DOUBLEDOWN ⟨[cardQD]⟩).map
        (fun r => (r.1.bet, r.1.choice, r.1.hand.cards.length, r.1.isBust,
          r.1.isDone, r.2.1))
      = some (10, some Choice.STAND, 3, true, true, none) := rfl
